import Mathlib

/-!
Shallow embedding of the poll cog of the Discord bot (src/cogs/poll.py):
the in-memory poll registry (`active_polls`), poll creation
(`Poll.create_poll`), the vote-toggle button handler
(`PollButton.callback`), tally rendering (`Poll.create_poll_embed`) and
poll closure (`Poll.end_poll`).

Python dictionaries are embedded as insertion-ordered association lists,
Python sets as `Finset Nat` (voter ids are integers), wall-clock instants
as integer numbers of seconds, and the float arithmetic of the rendering
code as exact rational arithmetic.  Fallible dictionary indexing is
embedded as an `Option`.
-/

namespace PollBot

/-- Python truncating conversion `int(q)`: rounds toward zero. -/
def pyTrunc (q : Rat) : Int := if 0 ≤ q then ⌊q⌋ else ⌈q⌉

/-- The `poll_data["votes"]` dictionary: option index to set of voter ids. -/
abbrev VotesDict := List (Nat × Finset Nat)

/-- The key list of a votes dictionary. -/
def keysOf (d : VotesDict) : List Nat := d.map Prod.fst

/-- Dictionary lookup `votes[k]`; `none` models a `KeyError`. -/
def dictGet (d : VotesDict) (k : Nat) : Option (Finset Nat) :=
  (d.find? (fun q => q.1 == k)).map Prod.snd

/-- The set stored at key `k`, defaulting to `∅` when the key is absent
(every lookup in the source happens at a present key). -/
def votesAt (d : VotesDict) (k : Nat) : Finset Nat :=
  (dictGet d k).getD ∅

/-- In-place mutation of the set object stored under key `k`
(`votes[k].remove(u)` / `votes[k].add(u)`). -/
def dictModify (d : VotesDict) (k : Nat) (f : Finset Nat → Finset Nat) : VotesDict :=
  d.map (fun q => if q.1 = k then (q.1, f q.2) else q)

/-- The loop `for v in votes.values(): v.discard(user_id)` of the
single-choice branch of `PollButton.callback`. -/
def clearVoter (d : VotesDict) (u : Nat) : VotesDict :=
  d.map (fun q => (q.1, q.2.erase u))

/-- `total_votes = sum(len(votes) for votes in poll_data["votes"].values())`. -/
def totalVotes (d : VotesDict) : Nat :=
  (d.map (fun q => q.2.card)).sum

/-- The `poll_data` dictionary built by `Poll.create_poll`. -/
structure PollData where
  title : String
  options : List String
  votes : VotesDict
  multiple : Bool
  author_id : Nat
  end_time : Int
  channel_id : Nat
deriving DecidableEq

/-- `self.active_polls`: message id to poll data. -/
abbrev Registry := List (Nat × PollData)

/-- `self.active_polls.get(message_id)`. -/
def regGet (r : Registry) (msgId : Nat) : Option PollData :=
  (r.find? (fun q => q.1 == msgId)).map Prod.snd

/-- In-place mutation of the poll stored under `msgId`. -/
def regSet (r : Registry) (msgId : Nat) (p : PollData) : Registry :=
  r.map (fun q => if q.1 = msgId then (q.1, p) else q)

/-- `del self.active_polls[message_id]`. -/
def regRemove (r : Registry) (msgId : Nat) : Registry :=
  r.filter (fun q => q.1 != msgId)

/-- The whitespace test of Python's `str.strip` (ASCII whitespace). -/
def isSpaceChar (c : Char) : Bool :=
  c = ' ' || c = '\t' || c = '\n' || c = '\r' || c = '\x0b' || c = '\x0c'

/-- `opt.strip()`: drop leading and trailing whitespace. -/
def stripChars (l : List Char) : List Char :=
  ((l.dropWhile isSpaceChar).reverse.dropWhile isSpaceChar).reverse

/-- `option_list = [opt.strip() for opt in options.split(",")]`
(`str.split` with a one-character separator keeps empty segments). -/
def parseOptions (s : String) : List String :=
  (s.data.splitOn ',').map (fun cs => String.mk (stripChars cs))

/-- `Poll.create_poll`: validate the parsed option list (count only),
build `poll_data` and store it under the freshly published message id.
`now` is `datetime.now()` in seconds; the end time is
`now + timedelta(minutes=duration)`.  On a validation rejection nothing
is stored. -/
def create_poll (r : Registry) (newId : Nat) (title optStr : String)
    (duration : Int) (multiple : Bool) (author chan : Nat) (now : Int) :
    Registry × Option PollData :=
  let option_list := parseOptions optStr
  if option_list.length < 2 then (r, none)
  else if 10 < option_list.length then (r, none)
  else
    let poll_data : PollData :=
      { title := title
        options := option_list
        votes := (List.range option_list.length).map (fun i => (i, (∅ : Finset Nat)))
        multiple := multiple
        author_id := author
        end_time := now + 60 * duration
        channel_id := chan }
    ((newId, poll_data) :: r, some poll_data)

/-- The outcome reported by a vote toggle: the source's action strings
"Removed vote from" and "Voted for". -/
inductive VoteAction where
  | removed
  | added
deriving DecidableEq

/-- The pure state transition at the heart of `PollButton.callback`:
`votes[option_id]` is read (a `KeyError`, i.e. `none`, when the index is
not a key); if the user is in that set the vote is retracted, otherwise
the single-choice branch first discards the user from every set, and the
user is added to the chosen set. -/
def pollToggle (p : PollData) (u oid : Nat) : Option (PollData × VoteAction) :=
  match dictGet p.votes oid with
  | none => none
  | some s =>
    if u ∈ s then
      some ({ p with votes := dictModify p.votes oid (fun t => t.erase u) }, .removed)
    else
      let base := if p.multiple then p.votes else clearVoter p.votes u
      some ({ p with votes := dictModify base oid (fun t => insert u t) }, .added)

/-- The votes dictionary after the vote-retraction branch of the toggle. -/
def removedVotes (p : PollData) (u oid : Nat) : VotesDict :=
  dictModify p.votes oid (fun t => t.erase u)

/-- The votes dictionary after the vote-adding branch of the toggle. -/
def addedVotes (p : PollData) (u oid : Nat) : VotesDict :=
  dictModify (if p.multiple then p.votes else clearVoter p.votes u) oid
    (fun t => insert u t)

/-- What an invocation of `PollButton.callback` reports. -/
inductive ToggleOutcome where
  | ended
  | keyError
  | acted (a : VoteAction)
deriving DecidableEq

/-- `PollButton.callback` at registry level: an absent poll yields the
"This poll has already ended!" message with no mutation; a `KeyError`
aborts before any mutation; otherwise the toggled poll replaces the
stored one. -/
def PollButton_callback (r : Registry) (msgId u oid : Nat) :
    Registry × ToggleOutcome :=
  match regGet r msgId with
  | none => (r, .ended)
  | some p =>
    match pollToggle p u oid with
    | none => (r, .keyError)
    | some (p1, a) => (regSet r msgId p1, .acted a)

/-- One rendered option line of the live tally embed: label, vote count,
percentage, and the filled / empty segment counts of the 10-segment bar. -/
structure OptionTally where
  label : String
  votes : Nat
  pct : Rat
  filled : Nat
  emptySeg : Nat
deriving DecidableEq

/-- The option fields of `Poll.create_poll_embed`: for each option in
declared order, `votes = len(votes[i])`,
`percentage = votes / total_votes * 100 if total_votes > 0 else 0`,
`bar = "█" * int(percentage / 10) + "░" * (10 - int(percentage / 10))`. -/
def create_poll_embed (p : PollData) : List OptionTally :=
  let total := totalVotes p.votes
  p.options.enum.map (fun q =>
    let v := (votesAt p.votes q.1).card
    let pct : Rat := if 0 < total then (v : Rat) / (total : Rat) * 100 else 0
    let filled := (pyTrunc (pct / 10)).toNat
    { label := q.2, votes := v, pct := pct, filled := filled
      emptySeg := 10 - filled })

/-- The embed footer's remaining time:
`int((end_time - datetime.now()).total_seconds() / 60)` (instants are
embedded at one-second granularity). -/
def minutesShown (p : PollData) (now : Int) : Int :=
  pyTrunc (((p.end_time - now : Int) : Rat) / 60)

/-- One entry of the `option_results` list of `Poll.end_poll`. -/
structure OptionResult where
  idx : Nat
  label : String
  votes : Nat
deriving DecidableEq

/-- One field of the results embed of `Poll.end_poll`: a winner field
("🏆 Winning Option: ..."), a non-winner field ("Option i+1: ..."), or the
zero-votes field rendering the literal "0 votes (0.0%)". -/
inductive ResultField where
  | winner (label : String) (votes : Nat) (pct : Rat) (filled : Nat)
  | loser (idx : Nat) (label : String) (votes : Nat) (pct : Rat) (filled : Nat)
  | novote (idx : Nat) (label : String)
deriving DecidableEq

/-- Whether a result field carries the winner label. -/
def ResultField.isWin : ResultField → Bool
  | .winner _ _ _ _ => true
  | _ => false

/-- The vote count a result field displays. -/
def ResultField.voteCt : ResultField → Nat
  | .winner _ v _ _ => v
  | .loser _ _ v _ _ => v
  | .novote _ _ => 0

/-- `option_results = [(i, option, len(votes[i])) for i, option in
enumerate(options)]`. -/
def option_results (p : PollData) : List OptionResult :=
  p.options.enum.map (fun q =>
    { idx := q.1, label := q.2, votes := (votesAt p.votes q.1).card })

/-- The field list of the results embed of `Poll.end_poll`: with a
positive total, the options at the maximum count are rendered first as
winners, then the remaining options; with a zero total every option is
rendered as the literal zero line. -/
def renderResults (p : PollData) : List ResultField :=
  let total := totalVotes p.votes
  let rs := option_results p
  if 0 < total then
    let maxv := (rs.map (fun q => q.votes)).foldr max 0
    let winners := rs.filter (fun q => q.votes == maxv)
    let others := rs.filter (fun q => q.votes != maxv)
    winners.map (fun q =>
        let pct : Rat := (q.votes : Rat) / (total : Rat) * 100
        .winner q.label q.votes pct ((pyTrunc (pct / 10)).toNat))
      ++ others.map (fun q =>
        let pct : Rat := (q.votes : Rat) / (total : Rat) * 100
        .loser q.idx q.label q.votes pct ((pyTrunc (pct / 10)).toNat))
  else
    rs.map (fun q => .novote q.idx q.label)

/-- `Poll.end_poll`: a missing id returns at once; otherwise the results
are rendered, the message edit is attempted inside try/except (so
`adapterOk`, whether the edit succeeds, cannot affect the state), and the
entry is deleted from the registry. -/
def end_poll (r : Registry) (msgId : Nat) (adapterOk : Bool) :
    Registry × Option (List ResultField) :=
  match regGet r msgId with
  | none => (r, none)
  | some p =>
    let fields := renderResults p
    let _ := adapterOk
    (regRemove r msgId, some fields)

/-- The percentage formula in the spec's words: `votes/total*100`, `0`
when the total is `0` (refinement target for the rendering claims). -/
def specPercentage (v total : Nat) : Rat :=
  if total = 0 then 0 else (v : Rat) / (total : Rat) * 100

/-- States reachable from `p` by any sequence of successful vote toggles. -/
inductive ReachesFrom : PollData → PollData → Prop
  | refl (p : PollData) : ReachesFrom p p
  | step {p q q1 : PollData} {u i : Nat} {a : VoteAction} :
      ReachesFrom p q → pollToggle q u i = some (q1, a) → ReachesFrom p q1

/-- Single-choice exclusivity: every voter is in at most one vote set. -/
def AtMostOne (d : VotesDict) : Prop :=
  ∀ u i j, u ∈ votesAt d i → u ∈ votesAt d j → i = j

/-- `max_votes = max(votes for _, _, votes in option_results)` (`max` of a
nonempty list; `0` for the empty list, which cannot occur for a created
poll). -/
def maxVotesOf (p : PollData) : Nat :=
  ((option_results p).map (fun q => q.votes)).foldr max 0

/-- The tally line the spec prescribes for label `lab` with `v` votes out
of `total`: the spec's percentage formula and a bar of
`floor(percentage / 10)` filled segments (refinement target). -/
def specTallyLine (lab : String) (v total : Nat) : OptionTally :=
  { label := lab
    votes := v
    pct := specPercentage v total
    filled := (Int.floor (specPercentage v total / 10)).toNat
    emptySeg := 10 - (Int.floor (specPercentage v total / 10)).toNat }

/-- Example poll: single-choice, voter `5` currently on option `0`. -/
def pollEx1 : PollData :=
  { title := "Lunch?", options := ["Pizza", "Salad"], votes := [(0, {5}), (1, ∅)],
    multiple := false, author_id := 1, end_time := 90, channel_id := 2 }

/-- `pollEx1` after voter `5` retracts the vote on option `0`. -/
def pollEx1After : PollData :=
  { title := "Lunch?", options := ["Pizza", "Salad"], votes := [(0, ∅), (1, ∅)],
    multiple := false, author_id := 1, end_time := 90, channel_id := 2 }

/-- Example poll: single-choice, voter `7` currently on option `1` only. -/
def pollEx2 : PollData :=
  { title := "t", options := ["a", "b"], votes := [(0, ∅), (1, {7})],
    multiple := false, author_id := 1, end_time := 0, channel_id := 2 }

/-- Example poll: multiple-choice, voter `4` currently on option `0`. -/
def pollEx3 : PollData :=
  { title := "t", options := ["a", "b"], votes := [(0, {4}), (1, ∅)],
    multiple := true, author_id := 1, end_time := 0, channel_id := 2 }

/-- Example poll with vote counts `[3, 1]` (the spec's rendering example). -/
def pollEx4 : PollData :=
  { title := "t", options := ["Pizza", "Salad"], votes := [(0, {1, 2, 3}), (1, {4})],
    multiple := false, author_id := 1, end_time := 0, channel_id := 2 }

/-- Example poll with the tie vote counts `[2, 2, 0]`. -/
def pollEx5 : PollData :=
  { title := "t", options := ["x", "y", "z"],
    votes := [(0, {1, 2}), (1, {3, 4}), (2, ∅)],
    multiple := true, author_id := 1, end_time := 0, channel_id := 2 }

/-- The poll built by `create_poll [] 1 "t" "a,b" 60 false 5 6 0`. -/
def pollFresh0 : PollData :=
  { title := "t", options := ["a", "b"], votes := [(0, ∅), (1, ∅)],
    multiple := false, author_id := 5, end_time := 3600, channel_id := 6 }

/-! ## Lemmas about the dictionary operations -/

theorem dictGet_dictModify_self (d : VotesDict) (k : Nat) (f : Finset Nat → Finset Nat) :
    dictGet (dictModify d k f) k = (dictGet d k).map f := by
  induction d with
  | nil => rfl
  | cons q t ih =>
    by_cases hq : q.1 = k
    · simp [dictGet, dictModify, List.find?_cons_of_pos, hq]
    · simpa [dictGet, dictModify, List.find?_cons_of_neg, hq] using ih

theorem dictGet_dictModify_ne (d : VotesDict) {k j : Nat} (f : Finset Nat → Finset Nat)
    (h : j ≠ k) : dictGet (dictModify d k f) j = dictGet d j := by
  induction d with
  | nil => rfl
  | cons q t ih =>
    show dictGet ((if q.1 = k then (q.1, f q.2) else q) :: dictModify t k f) j = _
    by_cases hq : q.1 = k
    · rw [if_pos hq]
      show ((List.find? _ ((q.1, f q.2) :: _)).map _) = dictGet (q :: t) j
      rw [List.find?_cons_of_neg _ (by simp [hq, Ne.symm h])]
      show dictGet (dictModify t k f) j = _
      rw [ih]
      show dictGet t j = dictGet (q :: t) j
      unfold dictGet
      rw [List.find?_cons_of_neg _ (by simp [hq, Ne.symm h])]
    · rw [if_neg hq]
      by_cases hqj : q.1 = j
      · show ((List.find? _ (q :: _)).map _) = dictGet (q :: t) j
        unfold dictGet
        rw [List.find?_cons_of_pos _ (by simp [hqj]), List.find?_cons_of_pos _ (by simp [hqj])]
      · show ((List.find? _ (q :: _)).map _) = dictGet (q :: t) j
        unfold dictGet
        rw [List.find?_cons_of_neg _ (by simp [hqj]), List.find?_cons_of_neg _ (by simp [hqj])]
        exact ih

theorem dictGet_clearVoter (d : VotesDict) (u j : Nat) :
    dictGet (clearVoter d u) j = (dictGet d j).map (fun s => s.erase u) := by
  induction d with
  | nil => rfl
  | cons q t ih =>
    by_cases hqj : q.1 = j
    · simp [dictGet, clearVoter, List.find?_cons_of_pos, hqj]
    · simpa [dictGet, clearVoter, List.find?_cons_of_neg, hqj] using ih

theorem keysOf_dictModify (d : VotesDict) (k : Nat) (f : Finset Nat → Finset Nat) :
    keysOf (dictModify d k f) = keysOf d := by
  induction d with
  | nil => rfl
  | cons q t ih =>
    show (if q.1 = k then (q.1, f q.2) else q).1 :: keysOf (dictModify t k f) = q.1 :: keysOf t
    rw [ih]
    by_cases hq : q.1 = k <;> simp [hq]

theorem keysOf_clearVoter (d : VotesDict) (u : Nat) :
    keysOf (clearVoter d u) = keysOf d := by
  induction d with
  | nil => rfl
  | cons q t ih =>
    show q.1 :: keysOf (clearVoter t u) = q.1 :: keysOf t
    rw [ih]

theorem votesAt_of_dictGet {d : VotesDict} {k : Nat} {s : Finset Nat}
    (h : dictGet d k = some s) : votesAt d k = s := by
  unfold votesAt
  rw [h]
  rfl

theorem votesAt_dictModify_self {d : VotesDict} {k : Nat} {s : Finset Nat}
    (f : Finset Nat → Finset Nat) (h : dictGet d k = some s) :
    votesAt (dictModify d k f) k = f s := by
  unfold votesAt
  rw [dictGet_dictModify_self, h]
  rfl

theorem votesAt_dictModify_ne (d : VotesDict) {k j : Nat} (f : Finset Nat → Finset Nat)
    (h : j ≠ k) : votesAt (dictModify d k f) j = votesAt d j := by
  unfold votesAt
  rw [dictGet_dictModify_ne d f h]

theorem votesAt_clearVoter (d : VotesDict) (u j : Nat) :
    votesAt (clearVoter d u) j = (votesAt d j).erase u := by
  unfold votesAt
  rw [dictGet_clearVoter]
  cases dictGet d j with
  | none => simp
  | some s => rfl

theorem dictModify_dictModify (d : VotesDict) (k : Nat)
    (f g : Finset Nat → Finset Nat) :
    dictModify (dictModify d k f) k g = dictModify d k (fun s => g (f s)) := by
  unfold dictModify
  rw [List.map_map]
  have hcomp : ((fun q => if q.1 = k then (q.1, g q.2) else q) ∘
      fun q => if q.1 = k then (q.1, f q.2) else q)
      = (fun q : Nat × Finset Nat => if q.1 = k then (q.1, (fun s => g (f s)) q.2) else q) := by
    funext q
    by_cases hq : q.1 = k <;> simp [Function.comp, hq]
  rw [hcomp]

theorem dictModify_of_not_mem_keys {d : VotesDict} {k : Nat} (f : Finset Nat → Finset Nat)
    (h : k ∉ keysOf d) : dictModify d k f = d := by
  induction d with
  | nil => rfl
  | cons q t ih =>
    have hq : ¬ q.1 = k := by
      intro hqk; exact h (by simp [keysOf, hqk])
    have ht : k ∉ keysOf t := by
      intro hm; exact h (by simp [keysOf] at hm ⊢; exact Or.inr hm)
    show (if q.1 = k then (q.1, f q.2) else q) :: dictModify t k f = q :: t
    rw [if_neg hq, ih ht]

theorem dictModify_eq_self {d : VotesDict} {k : Nat} {s : Finset Nat}
    {f : Finset Nat → Finset Nat} (hnd : (keysOf d).Nodup)
    (hs : dictGet d k = some s) (hf : f s = s) : dictModify d k f = d := by
  induction d with
  | nil => rfl
  | cons q t ih =>
    have hnd' : (keysOf t).Nodup := (List.nodup_cons.mp hnd).2
    have hq1 : q.1 ∉ keysOf t := (List.nodup_cons.mp hnd).1
    by_cases hq : q.1 = k
    · have hsq : s = q.2 := by
        unfold dictGet at hs
        rw [List.find?_cons_of_pos _ (by simp [hq])] at hs
        simpa using hs.symm
      have hfq : f q.2 = q.2 := by rw [← hsq, hf]
      have hkt : k ∉ keysOf t := hq ▸ hq1
      show (if q.1 = k then (q.1, f q.2) else q) :: dictModify t k f = q :: t
      rw [if_pos hq, hfq, dictModify_of_not_mem_keys f hkt]
    · have hs' : dictGet t k = some s := by
        unfold dictGet at hs ⊢
        rwa [List.find?_cons_of_neg _ (by simp [hq])] at hs
      show (if q.1 = k then (q.1, f q.2) else q) :: dictModify t k f = q :: t
      rw [if_neg hq, ih hnd' hs']

theorem clearVoter_eq_self {d : VotesDict} {u : Nat}
    (h : ∀ q ∈ d, u ∉ q.2) : clearVoter d u = d := by
  induction d with
  | nil => rfl
  | cons q t ih =>
    show (q.1, q.2.erase u) :: clearVoter t u = q :: t
    rw [Finset.erase_eq_of_not_mem (h q (by simp)), ih (fun p hp => h p (by simp [hp]))]

theorem dictGet_of_mem {d : VotesDict} {q : Nat × Finset Nat}
    (hnd : (keysOf d).Nodup) (hq : q ∈ d) : dictGet d q.1 = some q.2 := by
  induction d with
  | nil => cases hq
  | cons a t ih =>
    rcases List.mem_cons.mp hq with rfl | hq2
    · unfold dictGet
      rw [List.find?_cons_of_pos _ (by simp)]
      rfl
    · have hnd' : (keysOf t).Nodup := (List.nodup_cons.mp hnd).2
      have ha : a.1 ∉ keysOf t := (List.nodup_cons.mp hnd).1
      have hne : ¬ a.1 = q.1 := fun he => ha (by
        unfold keysOf
        rw [he]
        exact List.mem_map_of_mem Prod.fst hq2)
      unfold dictGet at ih ⊢
      rw [List.find?_cons_of_neg _ (by simp [hne])]
      exact ih hnd' hq2

theorem dictGet_eq_none {d : VotesDict} {k : Nat}
    (h : ∀ q ∈ d, q.1 ≠ k) : dictGet d k = none := by
  unfold dictGet
  rw [List.find?_eq_none.mpr]
  · rfl
  · intro q hq
    simp [h q hq]

theorem votesAt_empty_values {d : VotesDict} (j : Nat)
    (h : ∀ q ∈ d, q.2 = ∅) : votesAt d j = ∅ := by
  unfold votesAt dictGet
  cases hf : d.find? (fun q => q.1 == j) with
  | none => rfl
  | some q =>
    have := h q (List.mem_of_find?_eq_some hf)
    simp [this]

/-! ## Lemmas about the registry operations -/

theorem regGet_eq_none {r : Registry} {k : Nat}
    (h : ∀ q ∈ r, q.1 ≠ k) : regGet r k = none := by
  unfold regGet
  rw [List.find?_eq_none.mpr]
  · rfl
  · intro q hq
    simp [h q hq]

theorem regGet_regSet (r : Registry) (msgId : Nat) (p1 : PollData) :
    regGet (regSet r msgId p1) msgId = (regGet r msgId).map (fun _ => p1) := by
  induction r with
  | nil => rfl
  | cons q t ih =>
    by_cases hq : q.1 = msgId
    · simp [regGet, regSet, List.find?_cons_of_pos, hq]
    · simpa [regGet, regSet, List.find?_cons_of_neg, hq] using ih

theorem regGet_regSet_ne (r : Registry) {msgId j : Nat} (p1 : PollData)
    (h : j ≠ msgId) : regGet (regSet r msgId p1) j = regGet r j := by
  induction r with
  | nil => rfl
  | cons q t ih =>
    show regGet ((if q.1 = msgId then (q.1, p1) else q) :: regSet t msgId p1) j = _
    by_cases hq : q.1 = msgId
    · rw [if_pos hq]
      show ((List.find? _ ((q.1, p1) :: _)).map _) = regGet (q :: t) j
      rw [List.find?_cons_of_neg _ (by simp [hq, Ne.symm h])]
      show regGet (regSet t msgId p1) j = _
      rw [ih]
      show regGet t j = regGet (q :: t) j
      unfold regGet
      rw [List.find?_cons_of_neg _ (by simp [hq, Ne.symm h])]
    · rw [if_neg hq]
      by_cases hqj : q.1 = j
      · show ((List.find? _ (q :: _)).map _) = regGet (q :: t) j
        unfold regGet
        rw [List.find?_cons_of_pos _ (by simp [hqj]), List.find?_cons_of_pos _ (by simp [hqj])]
      · show ((List.find? _ (q :: _)).map _) = regGet (q :: t) j
        unfold regGet
        rw [List.find?_cons_of_neg _ (by simp [hqj]), List.find?_cons_of_neg _ (by simp [hqj])]
        exact ih

theorem keys_regSet (r : Registry) (msgId : Nat) (p1 : PollData) :
    (regSet r msgId p1).map Prod.fst = r.map Prod.fst := by
  induction r with
  | nil => rfl
  | cons q t ih =>
    show (if q.1 = msgId then (q.1, p1) else q).1 :: (regSet t msgId p1).map Prod.fst
        = q.1 :: t.map Prod.fst
    rw [ih]
    by_cases hq : q.1 = msgId <;> simp [hq]

theorem regGet_regRemove_self (r : Registry) (msgId : Nat) :
    regGet (regRemove r msgId) msgId = none := by
  refine regGet_eq_none (fun q hq => ?_)
  have := (List.mem_filter.mp hq).2
  simpa using this

theorem regGet_regRemove_ne (r : Registry) {msgId j : Nat} (h : j ≠ msgId) :
    regGet (regRemove r j) msgId = regGet r msgId := by
  induction r with
  | nil => rfl
  | cons q t ih =>
    by_cases hq : q.1 = j
    · have hqm : ¬ q.1 = msgId := by rw [hq]; exact h
      show regGet (List.filter _ (q :: t)) msgId = _
      rw [List.filter_cons_of_neg (by simp [hq])]
      unfold regGet at ih ⊢
      rw [List.find?_cons_of_neg _ (by simp [hqm])]
      exact ih
    · show regGet (List.filter _ (q :: t)) msgId = _
      rw [List.filter_cons_of_pos (by simp [hq])]
      by_cases hqm : q.1 = msgId
      · unfold regGet
        rw [List.find?_cons_of_pos _ (by simp [hqm]), List.find?_cons_of_pos _ (by simp [hqm])]
      · unfold regGet at ih ⊢
        rw [List.find?_cons_of_neg _ (by simp [hqm]), List.find?_cons_of_neg _ (by simp [hqm])]
        exact ih

/-! ## Inversion and membership lemmas for the vote toggle -/

theorem pollToggle_none {p : PollData} {u oid : Nat}
    (hs : dictGet p.votes oid = none) : pollToggle p u oid = none := by
  unfold pollToggle
  rw [hs]

theorem pollToggle_removed {p : PollData} {u oid : Nat} {s : Finset Nat}
    (hs : dictGet p.votes oid = some s) (hu : u ∈ s) :
    pollToggle p u oid = some ({ p with votes := removedVotes p u oid }, .removed) := by
  unfold pollToggle
  rw [hs]
  simp [hu, removedVotes]

theorem pollToggle_added {p : PollData} {u oid : Nat} {s : Finset Nat}
    (hs : dictGet p.votes oid = some s) (hu : u ∉ s) :
    pollToggle p u oid = some ({ p with votes := addedVotes p u oid }, .added) := by
  unfold pollToggle
  rw [hs]
  simp [hu, addedVotes]

theorem pollToggle_inv_removed {p p1 : PollData} {u oid : Nat}
    (h : pollToggle p u oid = some (p1, .removed)) :
    ∃ s, dictGet p.votes oid = some s ∧ u ∈ s ∧
      p1 = { p with votes := removedVotes p u oid } := by
  cases hg : dictGet p.votes oid with
  | none =>
    rw [pollToggle_none hg] at h
    cases h
  | some s =>
    by_cases hu : u ∈ s
    · rw [pollToggle_removed hg hu] at h
      simp only [Option.some.injEq, Prod.mk.injEq] at h
      exact ⟨s, rfl, hu, h.1.symm⟩
    · rw [pollToggle_added hg hu] at h
      simp only [Option.some.injEq, Prod.mk.injEq] at h
      cases h.2

theorem pollToggle_inv_added {p p1 : PollData} {u oid : Nat}
    (h : pollToggle p u oid = some (p1, .added)) :
    ∃ s, dictGet p.votes oid = some s ∧ u ∉ s ∧
      p1 = { p with votes := addedVotes p u oid } := by
  cases hg : dictGet p.votes oid with
  | none =>
    rw [pollToggle_none hg] at h
    cases h
  | some s =>
    by_cases hu : u ∈ s
    · rw [pollToggle_removed hg hu] at h
      simp only [Option.some.injEq, Prod.mk.injEq] at h
      cases h.2
    · rw [pollToggle_added hg hu] at h
      simp only [Option.some.injEq, Prod.mk.injEq] at h
      exact ⟨s, rfl, hu, h.1.symm⟩

theorem keysOf_removedVotes (p : PollData) (u oid : Nat) :
    keysOf (removedVotes p u oid) = keysOf p.votes :=
  keysOf_dictModify ..

theorem keysOf_addedVotes (p : PollData) (u oid : Nat) :
    keysOf (addedVotes p u oid) = keysOf p.votes := by
  unfold addedVotes
  rw [keysOf_dictModify]
  by_cases hm : p.multiple
  · rw [if_pos hm]
  · rw [if_neg hm, keysOf_clearVoter]

theorem pollToggle_fields {p p1 : PollData} {u oid : Nat} {a : VoteAction}
    (h : pollToggle p u oid = some (p1, a)) :
    p1.title = p.title ∧ p1.options = p.options ∧ p1.multiple = p.multiple ∧
    p1.author_id = p.author_id ∧ p1.end_time = p.end_time ∧
    p1.channel_id = p.channel_id ∧ keysOf p1.votes = keysOf p.votes := by
  cases a with
  | removed =>
    obtain ⟨s, _, _, rfl⟩ := pollToggle_inv_removed h
    refine ⟨rfl, rfl, rfl, rfl, rfl, rfl, ?_⟩
    show keysOf (removedVotes p u oid) = keysOf p.votes
    exact keysOf_removedVotes p u oid
  | added =>
    obtain ⟨s, _, _, rfl⟩ := pollToggle_inv_added h
    refine ⟨rfl, rfl, rfl, rfl, rfl, rfl, ?_⟩
    show keysOf (addedVotes p u oid) = keysOf p.votes
    exact keysOf_addedVotes p u oid

theorem pollToggle_action {p p1 : PollData} {u oid : Nat} {a : VoteAction}
    (h : pollToggle p u oid = some (p1, a)) :
    a = .removed ↔ u ∈ votesAt p.votes oid := by
  cases hg : dictGet p.votes oid with
  | none =>
    rw [pollToggle_none hg] at h
    cases h
  | some s =>
    rw [votesAt_of_dictGet hg]
    by_cases hu : u ∈ s
    · rw [pollToggle_removed hg hu] at h
      simp only [Option.some.injEq, Prod.mk.injEq] at h
      rw [← h.2]
      simp [hu]
    · rw [pollToggle_added hg hu] at h
      simp only [Option.some.injEq, Prod.mk.injEq] at h
      rw [← h.2]
      simp [hu]

theorem pollToggle_mem_removed {p p1 : PollData} {u oid : Nat}
    (h : pollToggle p u oid = some (p1, .removed)) (w j : Nat) :
    w ∈ votesAt p1.votes j ↔ (w ∈ votesAt p.votes j ∧ ¬(w = u ∧ j = oid)) := by
  obtain ⟨s, hs, hu, rfl⟩ := pollToggle_inv_removed h
  show w ∈ votesAt (removedVotes p u oid) j ↔ _
  unfold removedVotes
  by_cases hj : j = oid
  · subst hj
    rw [votesAt_dictModify_self _ hs, votesAt_of_dictGet hs]
    simp [Finset.mem_erase, and_comm]
  · rw [votesAt_dictModify_ne _ _ hj]
    simp [hj]

theorem pollToggle_mem_added_single {p p1 : PollData} {u oid : Nat}
    (hm : p.multiple = false) (h : pollToggle p u oid = some (p1, .added)) (w j : Nat) :
    w ∈ votesAt p1.votes j ↔ ((w = u ∧ j = oid) ∨ (w ≠ u ∧ w ∈ votesAt p.votes j)) := by
  obtain ⟨s, hs, hu, rfl⟩ := pollToggle_inv_added h
  have hb : addedVotes p u oid
      = dictModify (clearVoter p.votes u) oid (fun t => insert u t) := by
    unfold addedVotes
    rw [hm]
    simp
  show w ∈ votesAt (addedVotes p u oid) j ↔ _
  rw [hb]
  have hbase : dictGet (clearVoter p.votes u) oid = some (s.erase u) := by
    rw [dictGet_clearVoter, hs]
    rfl
  by_cases hj : j = oid
  · subst hj
    rw [votesAt_dictModify_self _ hbase, Finset.erase_eq_of_not_mem hu,
      votesAt_of_dictGet hs]
    by_cases hw : w = u <;> simp [hw]
  · rw [votesAt_dictModify_ne _ _ hj, votesAt_clearVoter]
    simp [hj, Finset.mem_erase, and_comm]

/-! ## Generic helper lemmas -/

theorem foldr_max_le {l : List Nat} {x : Nat} (hx : x ∈ l) : x ≤ l.foldr max 0 := by
  induction l with
  | nil => cases hx
  | cons a t ih =>
    rcases List.mem_cons.mp hx with rfl | hx2
    · exact le_max_left _ _
    · exact le_trans (ih hx2) (le_max_right _ _)

theorem foldr_max_mem {l : List Nat} (h : 0 < l.foldr max 0) : l.foldr max 0 ∈ l := by
  induction l with
  | nil => simp at h
  | cons a t ih =>
    show max a (t.foldr max 0) ∈ a :: t
    rcases le_total (t.foldr max 0) a with hle | hle
    · rw [max_eq_left hle]
      exact List.mem_cons_self a t
    · rw [max_eq_right hle]
      have hpos : 0 < t.foldr max 0 := by
        have : max a (t.foldr max 0) = t.foldr max 0 := max_eq_right hle
        rw [show (List.foldr max 0 (a :: t)) = max a (t.foldr max 0) from rfl, this] at h
        exact h
      exact List.mem_cons_of_mem a (ih hpos)

theorem length_filter_split {α : Type} (l : List α) (pr : α → Bool) :
    (l.filter pr).length + (l.filter (fun x => !(pr x))).length = l.length := by
  induction l with
  | nil => rfl
  | cons a t ih =>
    by_cases h : pr a
    · rw [List.filter_cons_of_pos (by simp [h]), List.filter_cons_of_neg (by simp [h])]
      simp only [List.length_cons]
      omega
    · rw [List.filter_cons_of_neg (by simp [h]), List.filter_cons_of_pos (by simp [h])]
      simp only [List.length_cons]
      omega

theorem votesAt_eq_of_mem {d : VotesDict} {q : Nat × Finset Nat}
    (hnd : (keysOf d).Nodup) (hq : q ∈ d) : votesAt d q.1 = q.2 :=
  votesAt_of_dictGet (dictGet_of_mem hnd hq)

theorem totalVotes_eq_sum {d : VotesDict} {n : Nat}
    (hkeys : keysOf d = List.range n) :
    totalVotes d = ((List.range n).map (fun i => (votesAt d i).card)).sum := by
  have hnd : (keysOf d).Nodup := by rw [hkeys]; exact List.nodup_range n
  unfold totalVotes
  have hmap : d.map (fun q => q.2.card)
      = d.map (fun q => (votesAt d q.1).card) := by
    apply List.map_congr_left
    intro q hq
    rw [votesAt_eq_of_mem hnd hq]
  rw [hmap]
  have hcomp : d.map (fun q => (votesAt d q.1).card)
      = (d.map Prod.fst).map (fun i => (votesAt d i).card) := by
    rw [List.map_map]
    rfl
  rw [hcomp]
  show ((keysOf d).map _).sum = _
  rw [hkeys]

theorem keysOf_range_map (n : Nat) :
    keysOf ((List.range n).map (fun i => (i, (∅ : Finset Nat)))) = List.range n := by
  unfold keysOf
  rw [List.map_map]
  have : (Prod.fst ∘ fun i : Nat => (i, (∅ : Finset Nat))) = id := rfl
  rw [this, List.map_id]

theorem votesAt_range_map (n j : Nat) :
    votesAt ((List.range n).map (fun i => (i, (∅ : Finset Nat)))) j = ∅ := by
  apply votesAt_empty_values
  intro q hq
  obtain ⟨i, _, rfl⟩ := List.mem_map.mp hq
  rfl

theorem pyTrunc_of_nonneg {q : Rat} (h : 0 ≤ q) : pyTrunc q = ⌊q⌋ := if_pos h

theorem pyTrunc_of_neg {q : Rat} (h : q < 0) : pyTrunc q = ⌈q⌉ :=
  if_neg (not_le.mpr h)

theorem specPercentage_nonneg (v total : Nat) : 0 ≤ specPercentage v total := by
  unfold specPercentage
  by_cases h : total = 0
  · rw [if_pos h]
  · rw [if_neg h]
    positivity

theorem codePct_eq_spec (v total : Nat) :
    (if 0 < total then (v : Rat) / (total : Rat) * 100 else 0)
      = specPercentage v total := by
  unfold specPercentage
  by_cases h : total = 0
  · rw [if_pos h, if_neg (by omega)]
  · rw [if_neg h, if_pos (by omega)]

theorem atMostOne_toggle {q q1 : PollData} {u i : Nat} {a : VoteAction}
    (hm : q.multiple = false) (ha : AtMostOne q.votes)
    (ht : pollToggle q u i = some (q1, a)) : AtMostOne q1.votes := by
  cases a with
  | removed =>
    intro w x y hx hy
    rw [pollToggle_mem_removed ht] at hx hy
    exact ha w x y hx.1 hy.1
  | added =>
    intro w x y hx hy
    rw [pollToggle_mem_added_single hm ht] at hx hy
    rcases hx with ⟨hwu, rfl⟩ | ⟨hwu, hx2⟩
    · rcases hy with ⟨_, rfl⟩ | ⟨hwu2, _⟩
      · rfl
      · exact absurd hwu hwu2
    · rcases hy with ⟨hwu2, rfl⟩ | ⟨_, hy2⟩
      · exact absurd hwu2 hwu
      · exact ha w x y hx2 hy2

theorem scenario_toggle {p p1 p2 : PollData} {u A B : Nat} {a1 a2 : VoteAction}
    (hm : p.multiple = false) (ha : AtMostOne p.votes) (hAB : A ≠ B)
    (h1 : pollToggle p u A = some (p1, a1)) (h2 : pollToggle p1 u B = some (p2, a2)) :
    u ∈ votesAt p2.votes B ∧ u ∉ votesAt p2.votes A := by
  have hm1 : p1.multiple = false := by
    rw [(pollToggle_fields h1).2.2.1]
    exact hm
  have hub : u ∉ votesAt p1.votes B := by
    cases a1 with
    | removed =>
      intro hmem
      rw [pollToggle_mem_removed h1] at hmem
      have huA : u ∈ votesAt p.votes A := (pollToggle_action h1).mp rfl
      exact hAB (ha u A B huA hmem.1)
    | added =>
      intro hmem
      rw [pollToggle_mem_added_single hm h1] at hmem
      rcases hmem with ⟨_, hBA⟩ | ⟨hne, _⟩
      · exact hAB hBA.symm
      · exact hne rfl
  have ha2 : a2 = .added := by
    cases a2 with
    | removed => exact absurd ((pollToggle_action h2).mp rfl) hub
    | added => rfl
  subst ha2
  constructor
  · rw [pollToggle_mem_added_single hm1 h2]
    exact Or.inl ⟨rfl, rfl⟩
  · rw [pollToggle_mem_added_single hm1 h2]
    rintro (⟨_, hAB2⟩ | ⟨hne, _⟩)
    · exact hAB hAB2
    · exact hne rfl

/-! ## Claim theorems -/

/-- C1: for a poll and an in-range option index (one whose lookup in the
votes dictionary succeeds), a vote toggle behaves as specified: a voter
already in that option's set is removed from it with result "removed" and
no other set changes; otherwise the result is "added", the voter ends in
the chosen set, and when `allow_multiple` is false the voter was first
removed from every other option's set. -/
theorem claim_C1 (p : PollData) (u oid : Nat) (s : Finset Nat)
    (hs : dictGet p.votes oid = some s) :
    (u ∈ s → ∃ p1, pollToggle p u oid = some (p1, .removed)
      ∧ votesAt p1.votes oid = s.erase u
      ∧ ∀ j, j ≠ oid → votesAt p1.votes j = votesAt p.votes j)
    ∧ (u ∉ s → ∃ p1, pollToggle p u oid = some (p1, .added)
      ∧ votesAt p1.votes oid = insert u s
      ∧ ∀ j, j ≠ oid → votesAt p1.votes j
          = (if p.multiple then votesAt p.votes j else (votesAt p.votes j).erase u)) := by
  constructor
  · intro hu
    refine ⟨_, pollToggle_removed hs hu, ?_, ?_⟩
    · show votesAt (removedVotes p u oid) oid = s.erase u
      unfold removedVotes
      rw [votesAt_dictModify_self _ hs]
    · intro j hj
      show votesAt (removedVotes p u oid) j = votesAt p.votes j
      unfold removedVotes
      rw [votesAt_dictModify_ne _ _ hj]
  · intro hu
    refine ⟨_, pollToggle_added hs hu, ?_, ?_⟩
    · show votesAt (addedVotes p u oid) oid = insert u s
      unfold addedVotes
      by_cases hm : p.multiple
      · rw [if_pos hm, votesAt_dictModify_self _ hs]
      · rw [if_neg hm]
        have hbase : dictGet (clearVoter p.votes u) oid = some (s.erase u) := by
          rw [dictGet_clearVoter, hs]
          rfl
        rw [votesAt_dictModify_self _ hbase, Finset.erase_eq_of_not_mem hu]
    · intro j hj
      show votesAt (addedVotes p u oid) j = _
      unfold addedVotes
      by_cases hm : p.multiple
      · rw [if_pos hm, votesAt_dictModify_ne _ _ hj, if_pos hm]
      · rw [if_neg hm, votesAt_dictModify_ne _ _ hj, votesAt_clearVoter, if_neg hm]

/-- Witness for C1 at `pollEx1`, voter 5, option 0 (a retraction). -/
theorem claim_C1_witness :
    dictGet pollEx1.votes 0 = some {5} ∧ (5 : Nat) ∈ ({5} : Finset Nat)
    ∧ (∃ p1, pollToggle pollEx1 5 0 = some (p1, .removed)
      ∧ votesAt p1.votes 0 = ({5} : Finset Nat).erase 5
      ∧ ∀ j, j ≠ 0 → votesAt p1.votes j = votesAt pollEx1.votes j) :=
  ⟨by decide, by decide, (claim_C1 pollEx1 5 0 {5} (by decide)).1 (by decide)⟩

/-- C6: once closure is triggered on a registered poll, the poll is
removed from the registry regardless of whether the external message
update succeeds (the flag `b` has no effect on the resulting state);
afterwards a further close is a no-op and a vote toggle reports that the
poll has already ended, mutating nothing. -/
theorem claim_C6 (r : Registry) (msgId : Nat) (p : PollData) (b b1 b2 : Bool)
    (hp : regGet r msgId = some p) :
    end_poll r msgId b = (regRemove r msgId, some (renderResults p))
    ∧ (end_poll r msgId b).1 = (end_poll r msgId b1).1
    ∧ end_poll (regRemove r msgId) msgId b2 = (regRemove r msgId, none)
    ∧ ∀ u oid, PollButton_callback (regRemove r msgId) msgId u oid
        = (regRemove r msgId, .ended) := by
  have h1 : ∀ c, end_poll r msgId c = (regRemove r msgId, some (renderResults p)) := by
    intro c
    unfold end_poll
    rw [hp]
  have hnone : regGet (regRemove r msgId) msgId = none := regGet_regRemove_self r msgId
  refine ⟨h1 b, by rw [h1 b, h1 b1], ?_, ?_⟩
  · unfold end_poll
    rw [hnone]
  · intro u oid
    unfold PollButton_callback
    rw [hnone]

/-- Witness for C6 on a one-poll registry. -/
theorem claim_C6_witness :
    regGet [(1, pollEx1)] 1 = some pollEx1
    ∧ (end_poll [(1, pollEx1)] 1 false
        = (regRemove [(1, pollEx1)] 1, some (renderResults pollEx1))
      ∧ (end_poll [(1, pollEx1)] 1 false).1 = (end_poll [(1, pollEx1)] 1 true).1
      ∧ end_poll (regRemove [(1, pollEx1)] 1) 1 true = (regRemove [(1, pollEx1)] 1, none)
      ∧ ∀ u oid, PollButton_callback (regRemove [(1, pollEx1)] 1) 1 u oid
          = (regRemove [(1, pollEx1)] 1, .ended)) :=
  ⟨by decide, claim_C6 [(1, pollEx1)] 1 pollEx1 false true true (by decide)⟩

/-- C8: a toggle whose option index is out of the range of the poll's
option list aborts with the dictionary lookup failure and leaves the
registry (hence every vote set) unchanged. -/
theorem claim_C8 (r : Registry) (msgId u oid : Nat) (p : PollData)
    (hp : regGet r msgId = some p)
    (hkeys : keysOf p.votes = List.range p.options.length)
    (hoob : p.options.length ≤ oid) :
    PollButton_callback r msgId u oid = (r, .keyError) := by
  have hnone : dictGet p.votes oid = none := by
    apply dictGet_eq_none
    intro q hq hqk
    have hmem : q.1 ∈ keysOf p.votes := List.mem_map_of_mem Prod.fst hq
    rw [hkeys, hqk] at hmem
    have := List.mem_range.mp hmem
    omega
  unfold PollButton_callback
  simp only [hp]
  rw [pollToggle_none hnone]

/-- Witness for C8: option index 5 on the two-option `pollEx1`. -/
theorem claim_C8_witness :
    regGet [(1, pollEx1)] 1 = some pollEx1
    ∧ keysOf pollEx1.votes = List.range pollEx1.options.length
    ∧ pollEx1.options.length ≤ 5
    ∧ PollButton_callback [(1, pollEx1)] 1 9 5 = ([(1, pollEx1)], .keyError) :=
  ⟨by decide, by decide, by decide,
    claim_C8 [(1, pollEx1)] 1 9 5 pollEx1 (by decide) (by decide) (by decide)⟩

/-- C9 (amended): the footer's remaining time is the truncation toward
zero of (end time − now) / 60: the floor when the poll is not overdue,
but the ceiling when it is overdue. -/
theorem claim_C9 (p : PollData) (now : Int) :
    (now ≤ p.end_time → minutesShown p now = ⌊((p.end_time - now : Int) : Rat) / 60⌋)
    ∧ (p.end_time < now → minutesShown p now = ⌈((p.end_time - now : Int) : Rat) / 60⌉) := by
  constructor
  · intro h
    unfold minutesShown
    apply pyTrunc_of_nonneg
    have h0 : (0 : Rat) ≤ ((p.end_time - now : Int) : Rat) := by
      have : (0 : Int) ≤ p.end_time - now := by omega
      exact_mod_cast this
    exact div_nonneg h0 (by norm_num)
  · intro h
    unfold minutesShown
    apply pyTrunc_of_neg
    have h0 : ((p.end_time - now : Int) : Rat) < 0 := by
      have : p.end_time - now < (0 : Int) := by omega
      exact_mod_cast this
    exact div_neg_of_neg_of_pos h0 (by norm_num)

/-- Counterexample to C9 as stated: thirty seconds past the end of
`pollEx2` the code shows 0 minutes, while flooring would give −1. -/
theorem claim_C9_cex :
    minutesShown pollEx2 30 = 0
    ∧ ⌊((pollEx2.end_time - 30 : Int) : Rat) / 60⌋ = -1
    ∧ minutesShown pollEx2 30 ≠ ⌊((pollEx2.end_time - 30 : Int) : Rat) / 60⌋ := by
  have h1 : minutesShown pollEx2 30 = 0 := by norm_num [minutesShown, pollEx2, pyTrunc]
  have h2 : ⌊((pollEx2.end_time - 30 : Int) : Rat) / 60⌋ = -1 := by
    show ⌊(((0 : Int) - 30 : Int) : Rat) / 60⌋ = -1
    norm_num [Int.floor_eq_iff]
  refine ⟨h1, h2, ?_⟩
  rw [h1, h2]
  decide

/-- Witness for the amended C9 at a non-overdue instant of `pollEx1`. -/
theorem claim_C9_witness :
    (30 : Int) ≤ pollEx1.end_time
    ∧ minutesShown pollEx1 30 = ⌊((pollEx1.end_time - 30 : Int) : Rat) / 60⌋ :=
  ⟨by decide, (claim_C9 pollEx1 30).1 (by decide)⟩

/-- C10: a successful toggle on a registered poll replaces only that
poll's votes dictionary: the poll keeps its title, options, flag,
creator, end time and channel, the votes dictionary keeps exactly one
entry per option index, and every other registry entry is untouched. -/
theorem claim_C10 (r r1 : Registry) (msgId u oid : Nat) (p : PollData) (a : VoteAction)
    (hp : regGet r msgId = some p)
    (hkeys : keysOf p.votes = List.range p.options.length)
    (ht : PollButton_callback r msgId u oid = (r1, .acted a)) :
    ∃ p1, pollToggle p u oid = some (p1, a)
      ∧ regGet r1 msgId = some p1
      ∧ p1.title = p.title ∧ p1.options = p.options ∧ p1.multiple = p.multiple
      ∧ p1.author_id = p.author_id ∧ p1.end_time = p.end_time
      ∧ p1.channel_id = p.channel_id
      ∧ keysOf p1.votes = List.range p1.options.length
      ∧ r1.map Prod.fst = r.map Prod.fst
      ∧ (∀ mid, mid ≠ msgId → regGet r1 mid = regGet r mid) := by
  unfold PollButton_callback at ht
  simp only [hp] at ht
  cases hpt : pollToggle p u oid with
  | none =>
    simp only [hpt, Prod.mk.injEq] at ht
    cases ht.2
  | some q =>
    obtain ⟨p1, a1⟩ := q
    simp only [hpt, Prod.mk.injEq, ToggleOutcome.acted.injEq] at ht
    obtain ⟨hr1, ha1⟩ := ht
    subst hr1
    subst ha1
    obtain ⟨hti, hop, hmu, hau, hen, hch, hke⟩ := pollToggle_fields hpt
    refine ⟨p1, rfl, ?_, hti, hop, hmu, hau, hen, hch, ?_, keys_regSet r msgId p1, ?_⟩
    · rw [regGet_regSet, hp]
      rfl
    · rw [hke, hkeys, hop]
    · intro mid hmid
      exact regGet_regSet_ne r p1 hmid

/-- Witness for C10: voter 5 toggles option 0 on the one-poll registry. -/
theorem claim_C10_witness :
    regGet [(1, pollEx1)] 1 = some pollEx1
    ∧ keysOf pollEx1.votes = List.range pollEx1.options.length
    ∧ PollButton_callback [(1, pollEx1)] 1 5 0 = ([(1, pollEx1After)], .acted .removed)
    ∧ (∃ p1, pollToggle pollEx1 5 0 = some (p1, .removed)
      ∧ regGet [(1, pollEx1After)] 1 = some p1
      ∧ p1.title = pollEx1.title ∧ p1.options = pollEx1.options
      ∧ p1.multiple = pollEx1.multiple ∧ p1.author_id = pollEx1.author_id
      ∧ p1.end_time = pollEx1.end_time ∧ p1.channel_id = pollEx1.channel_id
      ∧ keysOf p1.votes = List.range p1.options.length
      ∧ ([(1, pollEx1After)] : Registry).map Prod.fst
          = ([(1, pollEx1)] : Registry).map Prod.fst
      ∧ (∀ mid, mid ≠ 1 → regGet [(1, pollEx1After)] mid = regGet [(1, pollEx1)] mid)) :=
  ⟨by decide, by decide, by decide,
    claim_C10 [(1, pollEx1)] [(1, pollEx1After)] 1 5 0 pollEx1 .removed
      (by decide) (by decide) (by decide)⟩

/-- C4 (amended): creation fails (and registers nothing) exactly when the
parsed option count is below 2 or above 10; an option that is empty after
trimming is not rejected.  For counts in [2, 10] creation succeeds and
registers the poll with one empty vote set per option index. -/
theorem claim_C4 (r : Registry) (newId : Nat) (title optStr : String)
    (duration : Int) (multiple : Bool) (author chan : Nat) (now : Int) :
    ((create_poll r newId title optStr duration multiple author chan now).2 = none
      ↔ ((parseOptions optStr).length < 2 ∨ 10 < (parseOptions optStr).length))
    ∧ ((create_poll r newId title optStr duration multiple author chan now).2 = none
      → (create_poll r newId title optStr duration multiple author chan now).1 = r)
    ∧ (2 ≤ (parseOptions optStr).length → (parseOptions optStr).length ≤ 10 →
      ∃ p, create_poll r newId title optStr duration multiple author chan now
          = ((newId, p) :: r, some p)
        ∧ regGet ((newId, p) :: r) newId = some p
        ∧ p.options = parseOptions optStr
        ∧ keysOf p.votes = List.range (parseOptions optStr).length
        ∧ (∀ i, votesAt p.votes i = ∅)
        ∧ p.title = title ∧ p.multiple = multiple
        ∧ p.author_id = author ∧ p.channel_id = chan
        ∧ p.end_time = now + 60 * duration) := by
  by_cases h1 : (parseOptions optStr).length < 2
  · have hcp : create_poll r newId title optStr duration multiple author chan now
        = (r, none) := by
      simp only [create_poll]
      rw [if_pos h1]
    rw [hcp]
    exact ⟨by simp [h1], fun _ => rfl, fun hge _ => absurd h1 (by omega)⟩
  · by_cases h2 : 10 < (parseOptions optStr).length
    · have hcp : create_poll r newId title optStr duration multiple author chan now
          = (r, none) := by
        simp only [create_poll]
        rw [if_neg h1, if_pos h2]
      rw [hcp]
      exact ⟨by simp [h2], fun _ => rfl, fun _ hle => absurd h2 (by omega)⟩
    · have hcp : create_poll r newId title optStr duration multiple author chan now
          = ((newId, PollData.mk title (parseOptions optStr)
                ((List.range (parseOptions optStr).length).map
                  (fun i => (i, (∅ : Finset Nat))))
                multiple author (now + 60 * duration) chan) :: r,
              some (PollData.mk title (parseOptions optStr)
                ((List.range (parseOptions optStr).length).map
                  (fun i => (i, (∅ : Finset Nat))))
                multiple author (now + 60 * duration) chan)) := by
        simp only [create_poll]
        rw [if_neg h1, if_neg h2]
      rw [hcp]
      refine ⟨by simp [h1, h2], by simp, fun _ _ =>
        ⟨_, rfl, ?_, rfl, keysOf_range_map _, fun i => votesAt_range_map _ i,
          rfl, rfl, rfl, rfl, rfl⟩⟩
      unfold regGet
      rw [List.find?_cons_of_pos _ (by simp)]
      rfl

/-- Counterexample to C4 as stated: "a,,b" parses to three options, one
of them empty after trimming, yet creation succeeds and registers the
poll instead of failing validation. -/
theorem claim_C4_cex :
    ("" ∈ parseOptions "a,,b")
    ∧ (create_poll [] 1 "t" "a,,b" 60 false 5 6 0).2 ≠ none
    ∧ (create_poll [] 1 "t" "a,,b" 60 false 5 6 0).1 ≠ ([] : Registry) :=
  ⟨by decide, by decide, by decide⟩

/-- Witness for the amended C4 at the two-option string "a,b". -/
theorem claim_C4_witness :
    2 ≤ (parseOptions "a,b").length ∧ (parseOptions "a,b").length ≤ 10
    ∧ (∃ p, create_poll [] 7 "t" "a,b" 60 false 5 6 0 = ((7, p) :: [], some p)
      ∧ regGet ((7, p) :: []) 7 = some p
      ∧ p.options = parseOptions "a,b"
      ∧ keysOf p.votes = List.range (parseOptions "a,b").length
      ∧ (∀ i, votesAt p.votes i = ∅)
      ∧ p.title = "t" ∧ p.multiple = false
      ∧ p.author_id = 5 ∧ p.channel_id = 6
      ∧ p.end_time = 0 + 60 * 60) :=
  ⟨by decide, by decide,
    (claim_C4 [] 7 "t" "a,b" 60 false 5 6 0).2.2 (by decide) (by decide)⟩

/-- C3 (amended): toggling the same voter and option twice restores the
poll exactly, provided the poll is multiple-choice or the voter holds no
vote on any other option; otherwise a single-choice poll loses the
voter's vote on the other option (see the counterexample). -/
theorem claim_C3 (p : PollData) (u oid : Nat) (s : Finset Nat)
    (hnd : (keysOf p.votes).Nodup)
    (hs : dictGet p.votes oid = some s)
    (hside : p.multiple = true ∨ ∀ q ∈ p.votes, q.1 ≠ oid → u ∉ q.2) :
    ∃ p1 a1 a2, pollToggle p u oid = some (p1, a1)
      ∧ pollToggle p1 u oid = some (p, a2) := by
  by_cases hu : u ∈ s
  · -- first toggle retracts, second re-adds
    have hg1 : dictGet (removedVotes p u oid) oid = some (s.erase u) := by
      unfold removedVotes
      rw [dictGet_dictModify_self, hs]
      rfl
    have hbase : (if p.multiple then removedVotes p u oid
        else clearVoter (removedVotes p u oid) u) = removedVotes p u oid := by
      by_cases hm : p.multiple
      · rw [if_pos hm]
      · rw [if_neg hm]
        apply clearVoter_eq_self
        intro q' hq'
        obtain ⟨q, hq, rfl⟩ := List.mem_map.mp hq'
        by_cases hqo : q.1 = oid
        · rw [if_pos hqo]
          exact Finset.not_mem_erase u q.2
        · rw [if_neg hqo]
          rcases hside with hmT | hclear
          · exact absurd hmT hm
          · exact hclear q hq hqo
    have haddv : addedVotes { p with votes := removedVotes p u oid } u oid = p.votes := by
      show dictModify (if p.multiple then removedVotes p u oid
          else clearVoter (removedVotes p u oid) u) oid (fun t => insert u t) = p.votes
      rw [hbase]
      show dictModify (dictModify p.votes oid (fun t => t.erase u)) oid
          (fun t => insert u t) = p.votes
      rw [dictModify_dictModify]
      exact dictModify_eq_self hnd hs (by rw [Finset.insert_erase hu])
    refine ⟨_, .removed, .added, pollToggle_removed hs hu, ?_⟩
    rw [pollToggle_added hg1 (Finset.not_mem_erase u s), haddv]
  · -- first toggle adds, second retracts
    have hbase0 : (if p.multiple then p.votes else clearVoter p.votes u) = p.votes := by
      by_cases hm : p.multiple
      · rw [if_pos hm]
      · rw [if_neg hm]
        apply clearVoter_eq_self
        intro q hq
        by_cases hqo : q.1 = oid
        · have := dictGet_of_mem hnd hq
          rw [hqo, hs] at this
          have hq2 : q.2 = s := by
            simpa using this.symm
          rw [hq2]
          exact hu
        · rcases hside with hmT | hclear
          · exact absurd hmT hm
          · exact hclear q hq hqo
    have haddv0 : addedVotes p u oid = dictModify p.votes oid (fun t => insert u t) := by
      unfold addedVotes
      rw [hbase0]
    have hg1 : dictGet (addedVotes p u oid) oid = some (insert u s) := by
      rw [haddv0, dictGet_dictModify_self, hs]
      rfl
    have hremv : removedVotes { p with votes := addedVotes p u oid } u oid = p.votes := by
      show dictModify (addedVotes p u oid) oid (fun t => t.erase u) = p.votes
      rw [haddv0, dictModify_dictModify]
      exact dictModify_eq_self hnd hs (by rw [Finset.erase_insert hu])
    refine ⟨_, .added, .removed, pollToggle_added hs hu, ?_⟩
    rw [pollToggle_removed hg1 (Finset.mem_insert_self u s), hremv]

/-- Counterexample to C3 as stated: on the single-choice `pollEx2`
(voter 7 on option 1) toggling (voter 7, option 0) twice does not restore
the vote sets — the vote on option 1 is lost. -/
theorem claim_C3_cex :
    ((pollToggle pollEx2 7 0).bind fun q => pollToggle q.1 7 0).map
        (fun q => q.1.votes) = some [(0, (∅ : Finset Nat)), (1, ∅)]
    ∧ pollEx2.votes ≠ [(0, (∅ : Finset Nat)), (1, ∅)] :=
  ⟨by decide, by decide⟩

/-- Witness for the amended C3: double toggle of voter 9 on option 1 of
the multiple-choice `pollEx3`. -/
theorem claim_C3_witness :
    (keysOf pollEx3.votes).Nodup ∧ dictGet pollEx3.votes 1 = some ∅
    ∧ (pollEx3.multiple = true ∨ ∀ q ∈ pollEx3.votes, q.1 ≠ 1 → (9 : Nat) ∉ q.2)
    ∧ (∃ p1 a1 a2, pollToggle pollEx3 9 1 = some (p1, a1)
      ∧ pollToggle p1 9 1 = some (pollEx3, a2)) :=
  ⟨by decide, by decide, Or.inl (by decide),
    claim_C3 pollEx3 9 1 ∅ (by decide) (by decide) (Or.inl (by decide))⟩

/-- C2: in every state reachable from creation of a single-choice poll by
vote toggles, each voter appears in at most one option's vote set; and
after a voter toggles option A and then a different option B, the voter
is in B's set and not in A's. -/
theorem claim_C2 (r : Registry) (newId : Nat) (title optStr : String)
    (duration : Int) (author chan : Nat) (now : Int) (p0 p : PollData)
    (hc : (create_poll r newId title optStr duration false author chan now).2 = some p0)
    (hreach : ReachesFrom p0 p) :
    AtMostOne p.votes
    ∧ ∀ u A B p1 a1 p2 a2, A ≠ B →
      pollToggle p u A = some (p1, a1) →
      pollToggle p1 u B = some (p2, a2) →
      u ∈ votesAt p2.votes B ∧ u ∉ votesAt p2.votes A := by
  have hp0 : p0.multiple = false ∧ ∀ q ∈ p0.votes, q.2 = ∅ := by
    by_cases h1 : (parseOptions optStr).length < 2
    · have hcp : create_poll r newId title optStr duration false author chan now
          = (r, none) := by
        simp only [create_poll]
        rw [if_pos h1]
      rw [hcp] at hc
      cases hc
    · by_cases h2 : 10 < (parseOptions optStr).length
      · have hcp : create_poll r newId title optStr duration false author chan now
            = (r, none) := by
          simp only [create_poll]
          rw [if_neg h1, if_pos h2]
        rw [hcp] at hc
        cases hc
      · have hcp : create_poll r newId title optStr duration false author chan now
            = ((newId, PollData.mk title (parseOptions optStr)
                  ((List.range (parseOptions optStr).length).map
                    (fun i => (i, (∅ : Finset Nat))))
                  false author (now + 60 * duration) chan) :: r,
                some (PollData.mk title (parseOptions optStr)
                  ((List.range (parseOptions optStr).length).map
                    (fun i => (i, (∅ : Finset Nat))))
                  false author (now + 60 * duration) chan)) := by
          simp only [create_poll]
          rw [if_neg h1, if_neg h2]
        rw [hcp] at hc
        simp only [Option.some.injEq] at hc
        subst hc
        refine ⟨rfl, ?_⟩
        intro q hq
        obtain ⟨i, _, rfl⟩ := List.mem_map.mp hq
        rfl
  obtain ⟨hm0, hv0⟩ := hp0
  have hbase : AtMostOne p0.votes := by
    intro w x y hx _
    rw [votesAt_empty_values x hv0] at hx
    exact absurd hx (Finset.not_mem_empty w)
  have hInv : p.multiple = false ∧ AtMostOne p.votes := by
    induction hreach with
    | refl => exact ⟨hm0, hbase⟩
    | step hr ht ih =>
      exact ⟨by rw [(pollToggle_fields ht).2.2.1]; exact ih.1,
        atMostOne_toggle ih.1 ih.2 ht⟩
  exact ⟨hInv.2, fun u A B p1 a1 p2 a2 hAB h1 h2 =>
    scenario_toggle hInv.1 hInv.2 hAB h1 h2⟩

/-- Witness for C2 at the freshly created two-option poll itself. -/
theorem claim_C2_witness :
    (create_poll [] 1 "t" "a,b" 60 false 5 6 0).2 = some pollFresh0
    ∧ ReachesFrom pollFresh0 pollFresh0
    ∧ (AtMostOne pollFresh0.votes
      ∧ ∀ u A B p1 a1 p2 a2, A ≠ B →
        pollToggle pollFresh0 u A = some (p1, a1) →
        pollToggle p1 u B = some (p2, a2) →
        u ∈ votesAt p2.votes B ∧ u ∉ votesAt p2.votes A) :=
  ⟨by decide, .refl pollFresh0,
    claim_C2 [] 1 "t" "a,b" 60 5 6 0 pollFresh0 pollFresh0 (by decide)
      (.refl pollFresh0)⟩

/-- C5: at closure with a positive total, the rendered field list is the
winner fields first — exactly the options whose count equals the maximum,
at least one of them, all labelled as winners — followed by the fields of
all remaining options; with a zero total every option is rendered as the
no-vote literal with no winner label. -/
theorem claim_C5 (p : PollData)
    (hkeys : keysOf p.votes = List.range p.options.length) :
    (0 < totalVotes p.votes →
      ∃ w o, renderResults p = w ++ o
        ∧ w.length = ((option_results p).filter
            (fun q => q.votes == maxVotesOf p)).length
        ∧ 1 ≤ w.length
        ∧ (∀ f ∈ w, f.isWin = true ∧ f.voteCt = maxVotesOf p)
        ∧ (∀ f ∈ o, f.isWin = false ∧ f.voteCt ≠ maxVotesOf p)
        ∧ w.length + o.length = p.options.length)
    ∧ (totalVotes p.votes = 0 →
      (renderResults p).length = p.options.length
        ∧ ∀ f ∈ renderResults p, f.isWin = false
          ∧ ∃ i lab, f = .novote i lab) := by
  have hlen_rs : (option_results p).length = p.options.length := by
    unfold option_results
    rw [List.length_map, List.enum_length]
  have hmv : (option_results p).map (fun q => q.votes)
      = (List.range p.options.length).map (fun i => (votesAt p.votes i).card) := by
    unfold option_results
    rw [List.map_map]
    have hfun : ((fun q : OptionResult => q.votes)
        ∘ fun q : Nat × String =>
          OptionResult.mk q.1 q.2 (votesAt p.votes q.1).card)
        = (fun i => (votesAt p.votes i).card) ∘ Prod.fst := rfl
    rw [hfun, ← List.map_map, List.enum_map_fst]
  constructor
  · intro htot
    simp only [renderResults]
    rw [if_pos htot]
    refine ⟨_, _, rfl, ?_, ?_, ?_, ?_, ?_⟩
    · rw [List.length_map]
      rfl
    · -- the maximum is attained
      have hex : ∃ v ∈ (option_results p).map (fun q => q.votes), 0 < v := by
        by_contra hall
        push_neg at hall
        have hzero : ((option_results p).map (fun q => q.votes)).sum = 0 :=
          List.sum_eq_zero (fun x hx => by
            have := hall x hx
            omega)
        rw [hmv] at hzero
        rw [totalVotes_eq_sum hkeys] at htot
        omega
      obtain ⟨v, hvmem, hvpos⟩ := hex
      have hmax_pos : 0 < maxVotesOf p :=
        lt_of_lt_of_le hvpos (foldr_max_le hvmem)
      have hmax_mem : maxVotesOf p ∈ (option_results p).map (fun q => q.votes) :=
        foldr_max_mem hmax_pos
      obtain ⟨q, hq, hqv⟩ := List.mem_map.mp hmax_mem
      have hqfil : q ∈ (option_results p).filter
          (fun q => q.votes == maxVotesOf p) :=
        List.mem_filter.mpr ⟨hq, by simp [hqv]⟩
      rw [List.length_map]
      have hpos := List.length_pos.mpr (List.ne_nil_of_mem hqfil)
      show 1 ≤ ((option_results p).filter (fun q => q.votes == maxVotesOf p)).length
      omega
    · intro f hf
      obtain ⟨q, hq, rfl⟩ := List.mem_map.mp hf
      refine ⟨rfl, ?_⟩
      show q.votes = maxVotesOf p
      have := (List.mem_filter.mp hq).2
      simpa using this
    · intro f hf
      obtain ⟨q, hq, rfl⟩ := List.mem_map.mp hf
      refine ⟨rfl, ?_⟩
      show q.votes ≠ maxVotesOf p
      have := (List.mem_filter.mp hq).2
      simpa using this
    · rw [List.length_map, List.length_map]
      have hsplit := length_filter_split (option_results p)
        (fun q => q.votes == maxVotesOf p)
      have hpred : (fun x : OptionResult => !(x.votes == maxVotesOf p))
          = (fun x : OptionResult => x.votes != maxVotesOf p) := rfl
      rw [hpred] at hsplit
      rw [← hlen_rs]
      exact hsplit
  · intro htot
    have h0 : ¬ 0 < totalVotes p.votes := by omega
    simp only [renderResults]
    rw [if_neg h0]
    constructor
    · rw [List.length_map]
      exact hlen_rs
    · intro f hf
      obtain ⟨q, _, rfl⟩ := List.mem_map.mp hf
      exact ⟨rfl, q.idx, q.label, rfl⟩

/-- Witness for C5 on the tie poll with counts [2, 2, 0]. -/
theorem claim_C5_witness :
    keysOf pollEx5.votes = List.range pollEx5.options.length
    ∧ 0 < totalVotes pollEx5.votes
    ∧ (∃ w o, renderResults pollEx5 = w ++ o
      ∧ w.length = ((option_results pollEx5).filter
          (fun q => q.votes == maxVotesOf pollEx5)).length
      ∧ 1 ≤ w.length
      ∧ (∀ f ∈ w, f.isWin = true ∧ f.voteCt = maxVotesOf pollEx5)
      ∧ (∀ f ∈ o, f.isWin = false ∧ f.voteCt ≠ maxVotesOf pollEx5)
      ∧ w.length + o.length = pollEx5.options.length) :=
  ⟨by decide, by decide, (claim_C5 pollEx5 (by decide)).1 (by decide)⟩

/-- C7: the live tally renders one line per option in declared order,
each line equal to the spec's formula: `votes = |vote set|`, `total` the
sum over all options, `percentage = votes/total*100` (0 on a zero total)
and a bar with `floor(percentage/10)` filled of 10 segments. -/
theorem claim_C7 (p : PollData)
    (hkeys : keysOf p.votes = List.range p.options.length) :
    (create_poll_embed p).length = p.options.length
    ∧ totalVotes p.votes
      = ((List.range p.options.length).map (fun i => (votesAt p.votes i).card)).sum
    ∧ ∀ i, i < p.options.length →
      (create_poll_embed p)[i]? = some (specTallyLine (p.options.getD i "")
        ((votesAt p.votes i).card) (totalVotes p.votes)) := by
  refine ⟨?_, totalVotes_eq_sum hkeys, ?_⟩
  · unfold create_poll_embed
    rw [List.length_map, List.enum_length]
  · intro i hi
    unfold create_poll_embed
    rw [List.getElem?_map, List.getElem?_enum, List.getElem?_eq_getElem hi]
    simp only [Option.map_some']
    have hgd : p.options.getD i "" = p.options[i] := List.getD_eq_getElem p.options "" hi
    rw [hgd]
    unfold specTallyLine
    have hpct := codePct_eq_spec ((votesAt p.votes i).card) (totalVotes p.votes)
    have hnn : (0 : Rat)
        ≤ specPercentage ((votesAt p.votes i).card) (totalVotes p.votes) / 10 :=
      div_nonneg (specPercentage_nonneg _ _) (by norm_num)
    simp only [hpct, pyTrunc_of_nonneg hnn]

/-- Witness for C7 at the poll with counts [3, 1]: option 1 renders at
75.0% with 7 of 10 segments filled, option 2 at 25.0% with 2 filled. -/
theorem claim_C7_witness :
    keysOf pollEx4.votes = List.range pollEx4.options.length
    ∧ ((create_poll_embed pollEx4).length = pollEx4.options.length
      ∧ totalVotes pollEx4.votes
        = ((List.range pollEx4.options.length).map
            (fun i => (votesAt pollEx4.votes i).card)).sum
      ∧ ∀ i, i < pollEx4.options.length →
        (create_poll_embed pollEx4)[i]? = some (specTallyLine (pollEx4.options.getD i "")
          ((votesAt pollEx4.votes i).card) (totalVotes pollEx4.votes)))
    ∧ specTallyLine "Pizza" 3 4 = ⟨"Pizza", 3, 75, 7, 3⟩
    ∧ specTallyLine "Salad" 1 4 = ⟨"Salad", 1, 25, 2, 8⟩ :=
  ⟨by decide, claim_C7 pollEx4 (by decide),
    by norm_num [specTallyLine, specPercentage]; omega,
    by norm_num [specTallyLine, specPercentage]; omega⟩

end PollBot
